import Mathlib

/-!
Verification of the real-time voice pipeline of the AIExamSaathi study assistant.

The development shallow-embeds the pure cores of the pipeline: the PCM frame codec
(`createBlob` with its base64 `btoa`/`atob` transport encoding, and `decodeAudioData`),
the playback scheduler of the inbound-audio branch, the interrupted branch, the
transcript assembler around the transcription and turnComplete branches, the outbound
capture-to-connection path with its promise reaction queue, the resource steps of
`stopLiveSession` and `startLiveSession`, and the tool-call handler. Samples are
embedded as rationals: every number the pipeline produces (a sample scaled by a power
of two, an int16 divided by 32768) is exactly representable in the double precision
the source uses, so exact arithmetic is faithful. Strings are embedded as character
lists so that the JavaScript `trim` can be reasoned about directly.
-/

namespace ExamSaathi

/-- The base64 alphabet used by `btoa` (RFC 4648). -/
def b64Alphabet : List Char :=
  "ABCDEFGHIJKLMNOPQRSTUVWXYZabcdefghijklmnopqrstuvwxyz0123456789+/".toList

/-- Character for a 6-bit group. -/
def b64Char (n : Nat) : Char := b64Alphabet.getD n '='

/-- Index of a base64 character in the alphabet (`none` for non-alphabet chars). -/
def b64Index (c : Char) : Option Nat := b64Alphabet.indexOf? c

/-- Encoder `btoa`: encode a byte list into base64 characters, three bytes at a time. -/
def btoaChunks : List Nat → List Char
  | [] => []
  | [a] => [b64Char (a / 4), b64Char (a % 4 * 16), '=', '=']
  | [a, b] => [b64Char (a / 4), b64Char (a % 4 * 16 + b / 16), b64Char (b % 16 * 4), '=']
  | a :: b :: c :: rest =>
      b64Char (a / 4) :: b64Char (a % 4 * 16 + b / 16) ::
      b64Char (b % 16 * 4 + c / 64) :: b64Char (c % 64) :: btoaChunks rest

/-- Decoder core of `atob`: recombine 6-bit groups into bytes, four groups at a time. -/
def atobSextets : List Nat → List Nat
  | s1 :: s2 :: s3 :: s4 :: rest =>
      (s1 * 4 + s2 / 16) :: (s2 % 16 * 16 + s3 / 4) :: (s3 % 4 * 64 + s4) :: atobSextets rest
  | [s1, s2, s3] => [s1 * 4 + s2 / 16, s2 % 16 * 16 + s3 / 4]
  | [s1, s2] => [s1 * 4 + s2 / 16]
  | _ => []

/-- Decoder `atob`: strip padding, map characters back to 6-bit groups, recombine. -/
def atobChars (cs : List Char) : List Nat :=
  atobSextets ((cs.filter (· ≠ '=')).filterMap b64Index)

/-- Truncation toward zero, as JavaScript's number-to-integer conversion performs. -/
def ratTrunc (q : ℚ) : ℤ := if 0 ≤ q then ⌊q⌋ else ⌈q⌉

/-- The 16-bit pattern stored by `int16[i] = data[i] * 32768` in `createBlob`:
scale by 32768, truncate toward zero, reduce modulo 2^16 (JS `ToInt16`). -/
def toUint16 (x : ℚ) : Nat := (ratTrunc (x * 32768) % (65536 : ℤ)).toNat

/-- Reading a 16-bit pattern back as a signed value (what `Int16Array` yields). -/
def int16OfUint16 (u : Nat) : ℤ := if u < 32768 then (u : ℤ) else (u : ℤ) - 65536

/-- Little-endian byte pair of a 16-bit pattern (`new Uint8Array(int16.buffer)`). -/
def uint16BytesLE (u : Nat) : List Nat := [u % 256, u / 256]

/-- Byte sequence of `createBlob`: each sample converted to int16, packed little-endian. -/
def createBlobBytes (data : List ℚ) : List Nat :=
  data.flatMap (fun x => uint16BytesLE (toUint16 x))

/-- Payload of `createBlob`: the base64-encoded bytes of the PCM frame. -/
def createBlobData (data : List ℚ) : List Char := btoaChunks (createBlobBytes data)

/-- View `new Int16Array(bytes)`: pair consecutive bytes little-endian into signed 16-bit values. -/
def bytesToInt16 : List Nat → List ℤ
  | b0 :: b1 :: rest => int16OfUint16 (b1 * 256 + b0) :: bytesToInt16 rest
  | _ => []

/-- Decoding `decodeAudioData`: per-channel float samples, dividing each int16 value by 32768. -/
def decodeAudioData (bytes : List Nat) (numChannels : Nat) : List (List ℚ) :=
  let ints := bytesToInt16 bytes
  let frameCount := ints.length / numChannels
  (List.range numChannels).map (fun ch =>
    (List.range frameCount).map (fun i => ((ints.getD (i * numChannels + ch) 0 : ℤ) : ℚ) / 32768))

/-- Mono decode path (`numChannels = 1`), the one used for frames in this app. -/
def decodeFrame (payload : List Char) : List ℚ :=
  (decodeAudioData (atobChars payload) 1).headD []

/-! Playback scheduler (the `onmessage` audio branch). -/

/-- An inbound audio chunk: the output clock reading (`outCtx.currentTime`) when it is
handled, and the decoded buffer duration. -/
structure Chunk where
  now : ℚ
  duration : ℚ

/-- One run of the audio branch: `nextStartTime = max(nextStartTime, outCtx.currentTime)`,
`source.start(nextStartTime)`, `nextStartTime += buffer.duration`.
Returns the start time used and the updated `nextStartTime`. -/
def scheduleChunk (nextStartTime : ℚ) (c : Chunk) : ℚ × ℚ :=
  (max nextStartTime c.now, max nextStartTime c.now + c.duration)

/-- Start times produced by handling a sequence of chunks in arrival order. -/
def startTimes (nextStartTime : ℚ) : List Chunk → List ℚ
  | [] => []
  | c :: rest => (scheduleChunk nextStartTime c).1 ::
      startTimes (scheduleChunk nextStartTime c).2 rest

/-! Interruption handling (the `onmessage` interrupted branch). -/

/-- An in-flight `AudioBufferSourceNode` handle: whether its playback already ended
naturally, and whether `stop()` has taken effect on it. -/
structure AudioSource where
  finished : Bool
  stopped : Bool
 deriving DecidableEq

/-- Scheduler state: the active-sources set and the rolling `nextStartTime` clock. -/
structure PlaybackState where
  sources : List AudioSource
  nextStartTime : ℚ

/-- Call `s.stop()`: halts a source still playing; on a source that already finished it is
a no-op (the Web Audio call is accepted, not an error). -/
def stopSource (s : AudioSource) : AudioSource :=
  if s.finished then s else { s with stopped := true }

/-- The interrupted branch: `sources.forEach(s => s.stop()); sources.clear();
nextStartTime = 0`. Returns the new state and the handles as the stops left them. -/
def interrupt (st : PlaybackState) : PlaybackState × List AudioSource :=
  ({ sources := [], nextStartTime := 0 }, st.sources.map stopSource)

/-! Transcript assembler (the transcription / turnComplete branches). -/

/-- JavaScript strings, embedded as character lists. -/
abbrev JStr := List Char

/-- The character class removed by the JavaScript `String.prototype.trim`
(ECMAScript WhiteSpace and LineTerminator code points). -/
def isJsWhitespace (c : Char) : Bool :=
  [0x09, 0x0A, 0x0B, 0x0C, 0x0D, 0x20, 0xA0, 0x1680, 0x2000, 0x2001, 0x2002, 0x2003,
    0x2004, 0x2005, 0x2006, 0x2007, 0x2008, 0x2009, 0x200A, 0x2028, 0x2029, 0x202F,
    0x205F, 0x3000, 0xFEFF].contains c.toNat

/-- JavaScript `trim()`: drop whitespace from both ends. -/
def jsTrim (s : JStr) : JStr :=
  List.rdropWhile isJsWhitespace (s.dropWhile isJsWhitespace)

/-- Message roles in the chat log. -/
inductive Role
  | user
  | ai
 deriving DecidableEq

/-- An entry of the message log. -/
structure Message where
  role : Role
  text : JStr
 deriving DecidableEq

/-- Inbound transcript events of a live session, in arrival order. -/
inductive TEvent
  | inputTranscription (t : JStr)
  | outputTranscription (t : JStr)
  | turnComplete
 deriving DecidableEq

/-- The `turnComplete` branch body: trim both buffers, and when at least one trimmed
text is nonempty append the user message (if any) then the ai message (if any). -/
def flushTurn (u a : JStr) : List Message :=
  if jsTrim u ≠ [] ∨ jsTrim a ≠ [] then
    (if jsTrim u ≠ [] then [⟨Role.user, jsTrim u⟩] else [])
      ++ (if jsTrim a ≠ [] then [⟨Role.ai, jsTrim a⟩] else [])
  else []

/-- Assembler state: the two per-turn buffers and the message log. -/
structure TState where
  userBuf : JStr
  aiBuf : JStr
  log : List Message

/-- The `onmessage` transcription branches: fragments append to the matching buffer;
`turnComplete` flushes and clears both buffers. -/
def stepEvent (st : TState) : TEvent → TState
  | .inputTranscription t => { st with userBuf := st.userBuf ++ t }
  | .outputTranscription t => { st with aiBuf := st.aiBuf ++ t }
  | .turnComplete =>
      { userBuf := [], aiBuf := [], log := st.log ++ flushTurn st.userBuf st.aiBuf }

/-- Run a whole inbound event sequence from an empty session. -/
def runEvents (evs : List TEvent) : TState :=
  evs.foldl stepEvent ⟨[], [], []⟩

/-- Declarative restatement of the flush law, used to compare with the state machine:
per `turnComplete`, emit the flush of the fragment concatenations accumulated since
the previous flush; events after the last `turnComplete` emit nothing. -/
def assembleSpec (u a : JStr) : List TEvent → List Message
  | [] => []
  | .inputTranscription t :: rest => assembleSpec (u ++ t) a rest
  | .outputTranscription t :: rest => assembleSpec u (a ++ t) rest
  | .turnComplete :: rest => flushTurn u a ++ assembleSpec [] [] rest

/-! Outbound frame path (the `onaudioprocess` handler and the session promise). -/

/-- Events seen by the outbound path: a capture callback producing a frame payload, or
the resolution of the connection promise. -/
inductive TransportEvent
  | capture (frame : JStr)
  | resolve

/-- State of the outbound path: whether the session promise has resolved, the reaction
queue of `.then` callbacks registered before resolution, the frames submitted to the
connection, and all frames captured so far. -/
structure TransportState where
  resolved : Bool
  pending : List JStr
  sent : List JStr
  captured : List JStr

/-- One step. Each captured frame runs `sessionPromise.then(s => s.sendRealtimeInput)`:
before resolution the callback joins the reaction queue in registration order; once the
promise resolves, queued callbacks run in that order, and later callbacks run at once. -/
def stepTransport (st : TransportState) : TransportEvent → TransportState
  | .capture f =>
      if st.resolved then
        { st with captured := st.captured ++ [f], sent := st.sent ++ [f] }
      else
        { st with captured := st.captured ++ [f], pending := st.pending ++ [f] }
  | .resolve =>
      { st with resolved := true, sent := st.sent ++ st.pending, pending := [] }

/-- Run the outbound path from the initial (unresolved, empty) state. -/
def runTransport (evs : List TransportEvent) : TransportState :=
  evs.foldl stepTransport ⟨false, [], [], []⟩

/-! Session teardown (`stopLiveSession`). -/

/-- The five teardown effects named by the specification. -/
inductive TearStep
  | clearPlayback
  | stopForwarding
  | releaseMic
  | closeConnection
  | setClosed
 deriving DecidableEq

/-- Fault injection: which underlying release calls throw when invoked. -/
structure Faults where
  sourceStopThrows : Bool
  disconnectThrows : Bool
  trackStopThrows : Bool
  closeThrows : Bool

/-- Run teardown steps with exception semantics. Each entry is a step label, whether
its underlying call throws, and whether the code wraps the call in a try/catch. An
unwrapped throw propagates and skips every later step; a wrapped throw is swallowed.
Returns the steps reached and whether teardown ran to completion. -/
def runTearSteps : List (TearStep × Bool × Bool) → List TearStep × Bool
  | [] => ([], true)
  | (step, thr, wrapped) :: rest =>
      if thr && !wrapped then ([], false)
      else ((runTearSteps rest).1.cons step, (runTearSteps rest).2)

/-- Teardown `stopLiveSession`, step for step: stop and clear playback sources (each `s.stop()`
in its own try/catch) and zero the clock; `scriptProcessor.disconnect()` (unwrapped);
`track.stop()` on the stream (unwrapped); `session.close()` (in a try/catch); then the
state flags (Closed). -/
def stopLiveSessionSteps (f : Faults) : List TearStep × Bool :=
  runTearSteps
    [(TearStep.clearPlayback, f.sourceStopThrows, true),
     (TearStep.stopForwarding, f.disconnectThrows, false),
     (TearStep.releaseMic, f.trackStopThrows, false),
     (TearStep.closeConnection, f.closeThrows, true),
     (TearStep.setClosed, false, false)]

/-! Tool-call handling (`handleAssistantToolCall`). -/

/-- A function call received from the live endpoint. -/
structure ToolCall where
  id : JStr
  name : JStr
  argsTopic : JStr
  argsConcept : JStr

/-- The response sent back via `session.sendToolResponse`. -/
structure ToolResponse where
  id : JStr
  name : JStr
  result : JStr

/-- The `switch (fc.name)` computing the result string. -/
def toolResult (fc : ToolCall) : JStr :=
  if fc.name = "generate_notes".toList then
    "Navigated to notes generator. Topic identified: ".toList ++ fc.argsTopic
      ++ ". Starting notes engine...".toList
  else if fc.name = "start_quiz".toList then
    "Starting a revision session for ".toList ++ fc.argsTopic ++ ". Get ready!".toList
  else if fc.name = "show_history".toList then
    "Opening your academic history now.".toList
  else if fc.name = "set_pomodoro".toList then
    "Switching to focus mode.".toList
  else if fc.name = "get_motivation".toList then
    "Providing motivation boost.".toList
  else if fc.name = "solve_doubt".toList then
    "Searching for a simplified explanation for ".toList ++ fc.argsConcept ++ "...".toList
  else if fc.name = "go_home".toList then
    "Returning to the main dashboard.".toList
  else
    "Feature not implemented via voice yet.".toList

/-- The tool names the switch recognizes. -/
def knownToolNames : List JStr :=
  ["generate_notes".toList, "start_quiz".toList, "show_history".toList,
   "set_pomodoro".toList, "get_motivation".toList, "solve_doubt".toList,
   "go_home".toList]

/-- Handler `handleAssistantToolCall`: compute the result and send exactly one response with
the same id and name on the session. -/
def handleAssistantToolCall (fc : ToolCall) : ToolResponse :=
  ⟨fc.id, fc.name, toolResult fc⟩

/-- The `onmessage` tool branch: one response per received function call, in order. -/
def onToolCall (fcs : List ToolCall) : List ToolResponse :=
  fcs.map handleAssistantToolCall

/-! Session resource lifecycle (`startLiveSession` / `stopLiveSession` resources). -/

/-- Resource view of a UI surface: identifiers of microphone streams whose tracks are
live, identifiers of connections opened and not closed, and the two refs the component
keeps (`streamRef`, `sessionPromiseRef`). -/
structure SessionRes where
  nextId : Nat
  liveStreams : List Nat
  openConns : List Nat
  streamRef : Option Nat
  sessionRef : Option Nat

/-- A surface with no session. -/
def idleSession : SessionRes := ⟨0, [], [], none, none⟩

/-- Resource effect of `startLiveSession`: `getUserMedia` acquires a fresh stream and
overwrites `streamRef` (without stopping any previous stream); `ai.live.connect` opens
a fresh connection and overwrites `sessionPromiseRef` (without closing any previous
session). -/
def startLiveSession (st : SessionRes) : SessionRes :=
  { nextId := st.nextId + 2,
    liveStreams := st.liveStreams ++ [st.nextId],
    openConns := st.openConns ++ [st.nextId + 1],
    streamRef := some st.nextId,
    sessionRef := some (st.nextId + 1) }

/-- Resource effect of `stopLiveSession`: stop the tracks of the stream `streamRef` holds,
close the session `sessionPromiseRef` holds, and null both refs. -/
def stopLiveSessionRes (st : SessionRes) : SessionRes :=
  { st with
    liveStreams := match st.streamRef with
      | some s => st.liveStreams.filter (· ≠ s)
      | none => st.liveStreams,
    openConns := match st.sessionRef with
      | some c => st.openConns.filter (· ≠ c)
      | none => st.openConns,
    streamRef := none,
    sessionRef := none }

/-- A surface without leaked resources: exactly the stream and session its refs hold
are live. -/
def NoLeaks (st : SessionRes) : Prop :=
  st.liveStreams = st.streamRef.toList ∧ st.openConns = st.sessionRef.toList

/-! Supporting lemmas and the claim theorems. -/

theorem b64Char_ne_pad : ∀ s, s < 64 → b64Char s ≠ '=' := by decide

theorem b64Index_b64Char : ∀ s, s < 64 → b64Index (b64Char s) = some s := by decide

theorem atob_btoa (bs : List Nat) (h : ∀ b ∈ bs, b < 256) : atobChars (btoaChunks bs) = bs := by
  induction bs using btoaChunks.induct with
  | case1 => rfl
  | case2 a =>
      have ha : a < 256 := h a (by simp)
      have h1 : a / 4 < 64 := by omega
      have h2 : a % 4 * 16 < 64 := by omega
      have i1 := b64Index_b64Char _ h1
      have i2 := b64Index_b64Char _ h2
      simp [btoaChunks, atobChars, List.filter_cons, b64Char_ne_pad _ h1, b64Char_ne_pad _ h2,
        i1, i2, atobSextets]
      omega
  | case3 a b =>
      have ha : a < 256 := h a (by simp)
      have hb : b < 256 := h b (by simp)
      have h1 : a / 4 < 64 := by omega
      have h2 : a % 4 * 16 + b / 16 < 64 := by omega
      have h3 : b % 16 * 4 < 64 := by omega
      have i1 := b64Index_b64Char _ h1
      have i2 := b64Index_b64Char _ h2
      have i3 := b64Index_b64Char _ h3
      simp [btoaChunks, atobChars, List.filter_cons, b64Char_ne_pad _ h1, b64Char_ne_pad _ h2,
        b64Char_ne_pad _ h3, i1, i2, i3, atobSextets]
      omega
  | case4 a b c rest ih =>
      have ha : a < 256 := h a (by simp)
      have hb : b < 256 := h b (by simp)
      have hc : c < 256 := h c (by simp)
      have hrest : ∀ x ∈ rest, x < 256 := fun x hx => h x (by simp [hx])
      have h1 : a / 4 < 64 := by omega
      have h2 : a % 4 * 16 + b / 16 < 64 := by omega
      have h3 : b % 16 * 4 + c / 64 < 64 := by omega
      have h4 : c % 64 < 64 := by omega
      have i1 := b64Index_b64Char _ h1
      have i2 := b64Index_b64Char _ h2
      have i3 := b64Index_b64Char _ h3
      have i4 := b64Index_b64Char _ h4
      have ihr := ih hrest
      simp only [btoaChunks, atobChars, List.filter_cons, b64Char_ne_pad _ h1,
        b64Char_ne_pad _ h2, b64Char_ne_pad _ h3, b64Char_ne_pad _ h4, ne_eq,
        not_false_eq_true, decide_True, if_true, List.filterMap_cons, i1, i2, i3, i4,
        atobSextets] at ihr ⊢
      rw [ihr]
      simp only [List.cons.injEq]
      exact ⟨by omega, by omega, by omega, trivial⟩

theorem toUint16_lt (x : ℚ) : toUint16 x < 65536 := by
  unfold toUint16
  omega

theorem createBlobBytes_lt (data : List ℚ) : ∀ b ∈ createBlobBytes data, b < 256 := by
  intro b hb
  simp only [createBlobBytes, List.mem_flatMap] at hb
  obtain ⟨x, _, hx⟩ := hb
  have := toUint16_lt x
  simp only [uint16BytesLE, List.mem_cons, List.not_mem_nil, or_false] at hx
  rcases hx with h | h <;> omega

theorem bytesToInt16_createBlobBytes (data : List ℚ) :
    bytesToInt16 (createBlobBytes data) = data.map (fun x => int16OfUint16 (toUint16 x)) := by
  induction data with
  | nil => rfl
  | cons x rest ih =>
      have hu := toUint16_lt x
      have hstep : createBlobBytes (x :: rest)
          = toUint16 x % 256 :: toUint16 x / 256 :: createBlobBytes rest := by
        simp [createBlobBytes, uint16BytesLE]
      rw [hstep]
      simp only [bytesToInt16, ih, List.map_cons, List.cons.injEq]
      refine ⟨by congr 1; omega, trivial⟩

theorem map_getD_range {α β : Type} (l : List α) (d : α) (f : α → β) :
    (List.range l.length).map (fun i => f (l.getD i d)) = l.map f := by
  induction l with
  | nil => rfl
  | cons x xs ih =>
      rw [List.length_cons, List.range_succ_eq_map, List.map_cons, List.map_map,
        List.map_cons]
      simp only [List.getD_cons_zero]
      congr 1

theorem decodeAudioData_mono (bytes : List Nat) :
    decodeAudioData bytes 1 = [(bytesToInt16 bytes).map (fun v : ℤ => (v : ℚ) / 32768)] := by
  have hr1 : List.range 1 = [0] := rfl
  simp only [decodeAudioData, hr1, List.map_cons, List.map_nil, Nat.div_one, mul_one,
    Nat.add_zero]
  congr 1
  exact map_getD_range (bytesToInt16 bytes) 0 (fun v : ℤ => (v : ℚ) / 32768)

/-- Round-trip of one sample strictly inside `[-1, 1)`: error at most `1/32768`. -/
theorem sample_roundtrip (x : ℚ) (hlo : -1 ≤ x) (hhi : x < 1) :
    |((int16OfUint16 (toUint16 x) : ℚ) / 32768) - x| ≤ 1 / 32768 := by
  set y : ℚ := x * 32768 with hy
  have hylo : -32768 ≤ y := by rw [hy]; nlinarith
  have hyhi : y < 32768 := by rw [hy]; nlinarith
  have htr : |y - (ratTrunc y : ℚ)| < 1 := by
    unfold ratTrunc
    split
    · rw [abs_sub_lt_iff]
      constructor
      · linarith [Int.sub_one_lt_floor y]
      · linarith [Int.floor_le y]
    · rw [abs_sub_lt_iff]
      constructor
      · linarith [Int.le_ceil y]
      · linarith [Int.ceil_lt_add_one y]
  have hvlo : -32768 ≤ ratTrunc y := by
    unfold ratTrunc
    split
    · have : (0:ℤ) ≤ ⌊y⌋ := Int.floor_nonneg.mpr (by assumption)
      omega
    · have hc : (-32768 : ℚ) ≤ (⌈y⌉ : ℚ) := le_trans hylo (Int.le_ceil y)
      exact_mod_cast hc
  have hvhi : ratTrunc y < 32768 := by
    unfold ratTrunc
    split
    · have h1 : (⌊y⌋ : ℚ) ≤ y := Int.floor_le y
      have h2 : (⌊y⌋ : ℚ) < 32768 := lt_of_le_of_lt h1 hyhi
      exact_mod_cast h2
    · have h0 : ¬ (0:ℚ) ≤ y := by assumption
      have h1 : (⌈y⌉ : ℚ) < 1 := lt_of_lt_of_le (Int.ceil_lt_add_one y) (by linarith)
      have h2 : (⌈y⌉ : ℚ) < 32768 := lt_trans h1 (by norm_num)
      exact_mod_cast h2
  have hrecover : int16OfUint16 (toUint16 x) = ratTrunc y := by
    unfold int16OfUint16 toUint16
    rw [← hy]
    omega
  rw [hrecover]
  have hdiff : (ratTrunc y : ℚ) / 32768 - x = ((ratTrunc y : ℚ) - y) / 32768 := by
    rw [hy]; ring
  rw [hdiff, abs_div, abs_sub_comm]
  have h32 : |(32768 : ℚ)| = 32768 := by norm_num
  rw [h32, div_le_div_iff₀ (by norm_num) (by norm_num)]
  linarith

theorem startTimes_head_ge (n0 : ℚ) (cs : List Chunk) :
    ∀ t ∈ (startTimes n0 cs).head?, n0 ≤ t := by
  cases cs with
  | nil => simp [startTimes]
  | cons c rest =>
      intro t ht
      simp [startTimes, scheduleChunk] at ht
      simp [← ht]

theorem startTimes_gapless (n0 : ℚ) (cs : List Chunk) :
    List.Chain' (fun p q => p.1 + p.2.duration ≤ q.1) ((startTimes n0 cs).zip cs) := by
  induction cs generalizing n0 with
  | nil => simp [startTimes]
  | cons c rest ih =>
      rw [startTimes, List.zip_cons_cons, List.chain'_cons']
      refine ⟨?_, ih _⟩
      intro q hq
      cases rest with
      | nil => simp [startTimes] at hq
      | cons c2 r2 =>
          simp only [startTimes, List.zip_cons_cons, List.head?_cons, Option.mem_def,
            Option.some.injEq] at hq
          subst hq
          simp [scheduleChunk]

theorem startTimes_mono (n0 : ℚ) (cs : List Chunk) (hd : ∀ c ∈ cs, 0 ≤ c.duration) :
    List.Chain' (· ≤ ·) (startTimes n0 cs) := by
  induction cs generalizing n0 with
  | nil => simp [startTimes]
  | cons c rest ih =>
      rw [startTimes, List.chain'_cons']
      refine ⟨?_, ih _ (fun x hx => hd x (by simp [hx]))⟩
      intro q hq
      have h1 := startTimes_head_ge (scheduleChunk n0 c).2 rest q hq
      have h2 : 0 ≤ c.duration := hd c (by simp)
      simp only [scheduleChunk] at h1 ⊢
      linarith

theorem foldl_stepEvent_log (evs : List TEvent) (st : TState) :
    (evs.foldl stepEvent st).log = st.log ++ assembleSpec st.userBuf st.aiBuf evs := by
  induction evs generalizing st with
  | nil => simp [assembleSpec]
  | cons e rest ih =>
      cases e with
      | inputTranscription t => rw [List.foldl_cons, ih]; rfl
      | outputTranscription t => rw [List.foldl_cons, ih]; rfl
      | turnComplete =>
          rw [List.foldl_cons, ih]
          simp [stepEvent, assembleSpec]

theorem runEvents_log (evs : List TEvent) :
    (runEvents evs).log = assembleSpec [] [] evs := by
  rw [runEvents, foldl_stepEvent_log]
  rfl

theorem dropWhile_head?_false {α : Type} (p : α → Bool) (l : List α) (x : α)
    (h : (l.dropWhile p).head? = some x) : p x = false := by
  rw [← List.find?_not_eq_head?_dropWhile] at h
  have hx := List.find?_some h
  simpa using hx

theorem dropWhile_of_prefix_dropWhile {α : Type} (p : α → Bool) (l r u : List α)
    (h : r ++ u = l.dropWhile p) : r.dropWhile p = r := by
  cases r with
  | nil => rfl
  | cons x xs =>
      have hhead : (l.dropWhile p).head? = some x := by
        rw [← h]
        rfl
      have hx := dropWhile_head?_false p l x hhead
      rw [List.dropWhile_cons_of_neg (by simp [hx])]

theorem jsTrim_idempotent (s : JStr) : jsTrim (jsTrim s) = jsTrim s := by
  unfold jsTrim
  obtain ⟨u, hu⟩ := List.rdropWhile_prefix isJsWhitespace (s.dropWhile isJsWhitespace)
  rw [dropWhile_of_prefix_dropWhile isJsWhitespace s _ u hu, List.rdropWhile_idempotent]

theorem flushTurn_text_trimmed (u a : JStr) :
    ∀ m ∈ flushTurn u a, jsTrim m.text = m.text := by
  intro m hm
  unfold flushTurn at hm
  split at hm
  · rw [List.mem_append] at hm
    rcases hm with hm | hm <;> split at hm <;> simp at hm <;>
      rw [hm] <;> exact jsTrim_idempotent _
  · simp at hm

theorem log_trimmed (evs : List TEvent) (st : TState)
    (h : ∀ m ∈ st.log, jsTrim m.text = m.text) :
    ∀ m ∈ (evs.foldl stepEvent st).log, jsTrim m.text = m.text := by
  induction evs generalizing st with
  | nil => exact h
  | cons e rest ih =>
      rw [List.foldl_cons]
      apply ih
      cases e with
      | inputTranscription t => exact h
      | outputTranscription t => exact h
      | turnComplete =>
          intro m hm
          simp only [stepEvent, List.mem_append] at hm
          rcases hm with hm | hm
          · exact h m hm
          · exact flushTurn_text_trimmed _ _ m hm

theorem runTransport_invariant (evs : List TransportEvent) (st : TransportState)
    (h1 : st.sent ++ st.pending = st.captured)
    (h2 : st.resolved = true → st.pending = []) :
    (evs.foldl stepTransport st).sent ++ (evs.foldl stepTransport st).pending
        = (evs.foldl stepTransport st).captured
      ∧ ((evs.foldl stepTransport st).resolved = true
          → (evs.foldl stepTransport st).pending = []) := by
  induction evs generalizing st with
  | nil => exact ⟨h1, h2⟩
  | cons e rest ih =>
      rw [List.foldl_cons]
      cases e with
      | capture f =>
          by_cases hr : st.resolved
          · have hp := h2 hr
            apply ih
            · simp [stepTransport, hr, hp, ← h1]
            · intro _
              simp [stepTransport, hr, hp]
          · apply ih
            · simp only [stepTransport, Bool.not_eq_true] at *
              simp [hr, ← h1]
            · intro hc
              simp only [stepTransport, Bool.not_eq_true] at hc
              simp [hr] at hc
      | resolve =>
          apply ih
          · simp [stepTransport, ← h1]
          · intro _
            simp [stepTransport]

theorem decodeFrame_createBlob (data : List ℚ) :
    decodeFrame (createBlobData data)
      = data.map (fun x => (int16OfUint16 (toUint16 x) : ℚ) / 32768) := by
  unfold decodeFrame createBlobData
  rw [atob_btoa _ (createBlobBytes_lt data), decodeAudioData_mono, List.headD_cons,
    bytesToInt16_createBlobBytes, List.map_map]
  rfl

theorem decode_one_eval : decodeFrame (createBlobData [(1 : ℚ)]) = [-1] := by
  rw [decodeFrame_createBlob]
  norm_num [toUint16, ratTrunc, int16OfUint16]

theorem toUint16_one : toUint16 1 = 32768 := by
  norm_num [toUint16, ratTrunc]
  decide

theorem getD_map_rat (f : ℚ → ℚ) (S : List ℚ) (i : ℕ) (hi : i < S.length) :
    (S.map f).getD i 0 = f (S.getD i 0) := by
  rw [List.getD_eq_getElem _ _ (by simpa using hi), List.getD_eq_getElem _ _ hi,
    List.getElem_map]

/-- C1 (amended). For every sample array S with every sample in the half-open range
from -1 inclusive to 1 exclusive, decoding the frame produced by `createBlob` with
`decodeAudioData` yields as many samples as S, each within 1/32768 of the original.
The bound fails for a sample exactly equal to 1, which wraps to -1. -/
theorem claim_C1_roundtrip (S : List ℚ) (h : ∀ x ∈ S, -1 ≤ x ∧ x < 1)
    (i : ℕ) (hi : i < S.length) :
    (decodeFrame (createBlobData S)).length = S.length
      ∧ |(decodeFrame (createBlobData S)).getD i 0 - S.getD i 0| ≤ 1 / 32768 := by
  rw [decodeFrame_createBlob]
  refine ⟨by rw [List.length_map], ?_⟩
  rw [getD_map_rat _ S i hi]
  have hmem : S.getD i 0 ∈ S := by
    rw [List.getD_eq_getElem _ _ hi]
    exact List.getElem_mem hi
  obtain ⟨hlo, hhi⟩ := h _ hmem
  exact sample_roundtrip _ hlo hhi

/-- C1 witness: concrete instance of the round-trip bound. -/
theorem claim_C1_witness :
    (∀ x ∈ [(1 : ℚ)/2, -(1 : ℚ)/4], -1 ≤ x ∧ x < 1)
      ∧ ((decodeFrame (createBlobData [(1 : ℚ)/2, -(1 : ℚ)/4])).length
            = ([(1 : ℚ)/2, -(1 : ℚ)/4] : List ℚ).length
          ∧ |(decodeFrame (createBlobData [(1 : ℚ)/2, -(1 : ℚ)/4])).getD 0 0
              - ([(1 : ℚ)/2, -(1 : ℚ)/4] : List ℚ).getD 0 0| ≤ 1 / 32768) :=
  ⟨by intro x hx
      simp only [List.mem_cons, List.not_mem_nil, or_false] at hx
      rcases hx with rfl | rfl <;> norm_num,
   claim_C1_roundtrip [(1 : ℚ)/2, -(1 : ℚ)/4]
     (by intro x hx
         simp only [List.mem_cons, List.not_mem_nil, or_false] at hx
         rcases hx with rfl | rfl <;> norm_num)
     0 (by norm_num)⟩

/-- C1 counterexample: the claim as stated fails at S = the single sample 1.0, which
is inside the stated range but decodes to -1, an error of 2. -/
theorem claim_C1_counterexample :
    decodeFrame (createBlobData [(1 : ℚ)]) = [-1]
      ∧ ¬ |(decodeFrame (createBlobData [(1 : ℚ)])).getD 0 0 - (1 : ℚ)| ≤ 1 / 32768 := by
  refine ⟨decode_one_eval, ?_⟩
  rw [decode_one_eval]
  norm_num

/-- C9. The float-to-PCM conversion wraps instead of clamping: a sample exactly 1.0
is stored as the 16-bit pattern 32768, read back as -32768 (not the clamped 32767),
and round-trips to -1.0. -/
theorem claim_C9_wrap :
    toUint16 1 = 32768
      ∧ int16OfUint16 (toUint16 1) = -32768
      ∧ int16OfUint16 (toUint16 1) ≠ 32767
      ∧ decodeFrame (createBlobData [(1 : ℚ)]) = [-1] := by
  have h1 := toUint16_one
  refine ⟨h1, ?_, ?_, decode_one_eval⟩ <;> rw [h1] <;> decide

/-- C2. Playback scheduling is gapless and non-overlapping: for chunks handled in
arrival order with nonnegative durations, zipping start times with chunks, each next
start time is at least the previous start plus its duration, and the start times are
non-decreasing — for any initial clock and arrival jitter. -/
theorem claim_C2_gapless (n0 : ℚ) (cs : List Chunk) (hd : ∀ c ∈ cs, 0 ≤ c.duration) :
    List.Chain' (fun p q => p.1 + p.2.duration ≤ q.1) ((startTimes n0 cs).zip cs)
      ∧ List.Chain' (· ≤ ·) (startTimes n0 cs) :=
  ⟨startTimes_gapless n0 cs, startTimes_mono n0 cs hd⟩

/-- C2 witness: three chunks with jittered arrival clocks. -/
theorem claim_C2_witness :
    (∀ c ∈ [Chunk.mk 0 1, Chunk.mk (1/2) 2, Chunk.mk 10 (3/2)], 0 ≤ c.duration)
      ∧ (List.Chain' (fun p q => p.1 + p.2.duration ≤ q.1)
          ((startTimes 0 [Chunk.mk 0 1, Chunk.mk (1/2) 2, Chunk.mk 10 (3/2)]).zip
            [Chunk.mk 0 1, Chunk.mk (1/2) 2, Chunk.mk 10 (3/2)])
        ∧ List.Chain' (· ≤ ·)
            (startTimes 0 [Chunk.mk 0 1, Chunk.mk (1/2) 2, Chunk.mk 10 (3/2)])) :=
  ⟨by intro c hc
      simp only [List.mem_cons, List.not_mem_nil, or_false] at hc
      rcases hc with rfl | rfl | rfl <;> norm_num,
   claim_C2_gapless 0 [Chunk.mk 0 1, Chunk.mk (1/2) 2, Chunk.mk 10 (3/2)]
     (by intro c hc
         simp only [List.mem_cons, List.not_mem_nil, or_false] at hc
         rcases hc with rfl | rfl | rfl <;> norm_num)⟩

/-- C3. After the interrupted branch runs, the active-sources set is empty, the
next-start clock is zero, and every previously tracked handle was either stopped
or had already finished (stop on a finished handle is a no-op, not an error). -/
theorem claim_C3_interrupt (st : PlaybackState) :
    (interrupt st).1.sources = []
      ∧ (interrupt st).1.nextStartTime = 0
      ∧ (interrupt st).2 = st.sources.map stopSource
      ∧ ((interrupt st).2.all (fun s => s.stopped || s.finished)) = true := by
  refine ⟨rfl, rfl, rfl, ?_⟩
  rw [List.all_eq_true]
  intro s hs
  simp only [interrupt, List.mem_map] at hs
  obtain ⟨t, _, rfl⟩ := hs
  unfold stopSource
  by_cases hf : t.finished <;> simp [hf]

/-- C4 (amended). The transcript state machine flushes exactly once per turnComplete
event, emitting per turn the whitespace-trimmed concatenation of the user fragments
(if nonempty) then the trimmed concatenation of the ai fragments (if nonempty); the
scripted sequence a, b, x, turnComplete emits exactly the user message ab then the
ai message x, and a lone turnComplete with empty buffers emits nothing. -/
theorem claim_C4_flush :
    (∀ evs : List TEvent, (runEvents evs).log = assembleSpec [] [] evs)
      ∧ (runEvents [TEvent.inputTranscription ("a".toList),
            TEvent.inputTranscription ("b".toList),
            TEvent.outputTranscription ("x".toList), TEvent.turnComplete]).log
          = [⟨Role.user, "ab".toList⟩, ⟨Role.ai, "x".toList⟩]
      ∧ (runEvents [TEvent.turnComplete]).log = [] :=
  ⟨runEvents_log, by decide, by decide⟩

/-- C4 counterexample: a fragment with surrounding whitespace is flushed trimmed, so
the flushed user message is not the concatenation of the fragments as stated. -/
theorem claim_C4_counterexample :
    (runEvents [TEvent.inputTranscription (" a ".toList), TEvent.turnComplete]).log
        = [⟨Role.user, "a".toList⟩]
      ∧ (runEvents [TEvent.inputTranscription (" a ".toList), TEvent.turnComplete]).log
        ≠ [⟨Role.user, " a ".toList⟩] := by
  decide

/-- C5. No frame loss before connection acknowledgment, and order preservation: at
every point, the frames submitted followed by the still-queued ones are exactly the
captured frames in capture order; once the connection promise has resolved, nothing
is queued and the submitted frames equal the captured frames exactly. -/
theorem claim_C5_no_loss (evs : List TransportEvent) :
    (runTransport evs).sent ++ (runTransport evs).pending = (runTransport evs).captured
      ∧ ((runTransport evs).resolved = true
          → (runTransport evs).sent = (runTransport evs).captured) := by
  have h := runTransport_invariant evs ⟨false, [], [], []⟩ rfl (by intro h; cases h)
  refine ⟨h.1, fun hr => ?_⟩
  have hp := h.2 hr
  have h1 := h.1
  rw [hp, List.append_nil] at h1
  exact h1

/-- C5 witness: two frames captured while connecting and one after resolution are all
submitted, in capture order. -/
theorem claim_C5_witness :
    ((runTransport [TransportEvent.capture ("f1".toList),
        TransportEvent.capture ("f2".toList), TransportEvent.resolve,
        TransportEvent.capture ("f3".toList)]).sent
        ++ (runTransport [TransportEvent.capture ("f1".toList),
            TransportEvent.capture ("f2".toList), TransportEvent.resolve,
            TransportEvent.capture ("f3".toList)]).pending
      = (runTransport [TransportEvent.capture ("f1".toList),
            TransportEvent.capture ("f2".toList), TransportEvent.resolve,
            TransportEvent.capture ("f3".toList)]).captured)
      ∧ (runTransport [TransportEvent.capture ("f1".toList),
            TransportEvent.capture ("f2".toList), TransportEvent.resolve,
            TransportEvent.capture ("f3".toList)]).sent
        = (runTransport [TransportEvent.capture ("f1".toList),
            TransportEvent.capture ("f2".toList), TransportEvent.resolve,
            TransportEvent.capture ("f3".toList)]).captured :=
  ⟨(claim_C5_no_loss _).1, (claim_C5_no_loss _).2 (by decide)⟩

/-- C6 (amended). Teardown performs, in order: clear playback state, stop forwarding
captured frames, release the microphone stream, close the remote connection, then the
Closed transition; the per-source stops and the connection close are individually
wrapped, so their failures never block later steps, and with the unwrapped calls not
throwing the whole sequence always completes. -/
theorem claim_C6_teardown (s c : Bool) :
    stopLiveSessionSteps ⟨s, false, false, c⟩
      = ([TearStep.clearPlayback, TearStep.stopForwarding, TearStep.releaseMic,
          TearStep.closeConnection, TearStep.setClosed], true) := by
  cases s <;> cases c <;> decide

/-- C6 counterexample: the processor-disconnect step is not wrapped, so a throw there
skips the microphone release, the connection close and the Closed transition; and even
the fault-free order differs from the claimed order, clearing playback state first. -/
theorem claim_C6_counterexample :
    (stopLiveSessionSteps ⟨false, true, false, false⟩).1 = [TearStep.clearPlayback]
      ∧ TearStep.releaseMic ∉ (stopLiveSessionSteps ⟨false, true, false, false⟩).1
      ∧ TearStep.closeConnection ∉ (stopLiveSessionSteps ⟨false, true, false, false⟩).1
      ∧ (stopLiveSessionSteps ⟨false, false, false, false⟩).1
        ≠ [TearStep.stopForwarding, TearStep.releaseMic, TearStep.closeConnection,
           TearStep.clearPlayback, TearStep.setClosed] := by
  decide

/-- C7. Every function call in a tool-call message gets exactly one response, carrying
the same id and name; an unrecognized tool name is answered with the generic result
string rather than left unanswered. -/
theorem claim_C7_tool_response (fcs : List ToolCall) (fc : ToolCall) :
    (onToolCall fcs).length = fcs.length
      ∧ onToolCall fcs = fcs.map handleAssistantToolCall
      ∧ (handleAssistantToolCall fc).id = fc.id
      ∧ (handleAssistantToolCall fc).name = fc.name
      ∧ (fc.name ∉ knownToolNames
          → (handleAssistantToolCall fc).result
              = "Feature not implemented via voice yet.".toList) := by
  refine ⟨List.length_map _ _, rfl, rfl, rfl, ?_⟩
  intro hname
  simp only [knownToolNames, List.mem_cons, List.not_mem_nil, or_false, not_or] at hname
  obtain ⟨h1, h2, h3, h4, h5, h6, h7⟩ := hname
  unfold handleAssistantToolCall toolResult
  rw [if_neg h1, if_neg h2, if_neg h3, if_neg h4, if_neg h5, if_neg h6, if_neg h7]

/-- C7 witness: a call with an unrecognized name is answered with the generic result. -/
theorem claim_C7_witness :
    (onToolCall [ToolCall.mk ("id1".toList) ("dance_party".toList) [] []]).length = 1
      ∧ ("dance_party".toList ∉ knownToolNames)
      ∧ (handleAssistantToolCall
          (ToolCall.mk ("id1".toList) ("dance_party".toList) [] [])).result
        = "Feature not implemented via voice yet.".toList :=
  ⟨(claim_C7_tool_response [ToolCall.mk ("id1".toList) ("dance_party".toList) [] []]
      (ToolCall.mk ("id1".toList) ("dance_party".toList) [] [])).1,
   by decide,
   (claim_C7_tool_response [ToolCall.mk ("id1".toList) ("dance_party".toList) [] []]
      (ToolCall.mk ("id1".toList) ("dance_party".toList) [] [])).2.2.2.2 (by decide)⟩

/-- C8 (amended). `startLiveSession` itself performs no teardown: from a leak-free
surface, stopping the current session and then starting a new one leaves exactly one
live microphone stream and one open connection, and the surface stays leak-free; the
single-session invariant depends on a stop preceding the start. -/
theorem claim_C8_single_session (st : SessionRes) (h : NoLeaks st) :
    NoLeaks (startLiveSession (stopLiveSessionRes st))
      ∧ (startLiveSession (stopLiveSessionRes st)).liveStreams.length = 1
      ∧ (startLiveSession (stopLiveSessionRes st)).openConns.length = 1 := by
  obtain ⟨h1, h2⟩ := h
  have hs : (stopLiveSessionRes st).liveStreams = [] := by
    unfold stopLiveSessionRes
    cases hr : st.streamRef with
    | none => rw [h1, hr]; rfl
    | some s => simp [h1, hr]
  have hc : (stopLiveSessionRes st).openConns = [] := by
    unfold stopLiveSessionRes
    cases hr : st.sessionRef with
    | none => rw [h2, hr]; rfl
    | some s => simp [h2, hr]
  unfold startLiveSession NoLeaks
  rw [hs, hc]
  simp

/-- C8 witness: stop-then-start from an active leak-free surface. -/
theorem claim_C8_witness :
    NoLeaks (startLiveSession idleSession)
      ∧ (NoLeaks (startLiveSession (stopLiveSessionRes (startLiveSession idleSession)))
        ∧ (startLiveSession (stopLiveSessionRes
            (startLiveSession idleSession))).liveStreams.length = 1
        ∧ (startLiveSession (stopLiveSessionRes
            (startLiveSession idleSession))).openConns.length = 1) :=
  ⟨⟨rfl, rfl⟩, claim_C8_single_session (startLiveSession idleSession) ⟨rfl, rfl⟩⟩

/-- C8 counterexample: a second start with no stop in between leaves two live streams
and two open connections — the old session is not torn down, contradicting the claim
that exactly one of each remains. -/
theorem claim_C8_counterexample :
    (startLiveSession (startLiveSession idleSession)).liveStreams.length = 2
      ∧ (startLiveSession (startLiveSession idleSession)).openConns.length = 2
      ∧ (2 : ℕ) ≠ 1 := by
  decide

/-- C10. Flushed transcript text is always trimmed of leading and trailing whitespace,
and a turn whose buffers trim to empty emits zero messages: every message ever in the
log is a fixed point of trimming, and the flush of whitespace-only buffers is empty. -/
theorem claim_C10_trimmed :
    (∀ u a : JStr, jsTrim u = [] → jsTrim a = [] → flushTurn u a = [])
      ∧ (∀ evs : List TEvent, ∀ m ∈ (runEvents evs).log, jsTrim m.text = m.text) := by
  constructor
  · intro u a hu ha
    unfold flushTurn
    simp [hu, ha]
  · intro evs m hm
    exact log_trimmed evs ⟨[], [], []⟩ (by simp) m hm

/-- C10 witness: whitespace-only buffers flush to nothing, and a flushed message from
a padded fragment is its own trim. -/
theorem claim_C10_witness :
    flushTurn ("  ".toList) (" ".toList) = []
      ∧ jsTrim (Message.mk Role.user ("a".toList)).text
          = (Message.mk Role.user ("a".toList)).text :=
  ⟨claim_C10_trimmed.1 ("  ".toList) (" ".toList) (by decide) (by decide),
   claim_C10_trimmed.2 [TEvent.inputTranscription (" a ".toList), TEvent.turnComplete]
     (Message.mk Role.user ("a".toList)) (by decide)⟩

end ExamSaathi
